import Mathlib

/-!
Verification development for the mycostr storage core.

Shallow embedding of the chunk codec (`src/src/core/src/core/storage/chunk-handler.ts`
and the validated variant in `src/unnamed/part_008`), the placement planner
(`src/src/core/storage/distribution.ts`), the replica ledger
(`FileManager` in `src/unnamed/part_009`), the verification engine
(`VerificationManager` in `src/unnamed/part_010`) and the recovery manager
(`src/src/core/recovery/recovery-manager.ts`).

Bytes are modelled as `List Nat`; JS `Map`s keyed by strings are modelled as
total functions with a default for absent keys wherever the verified
operations cannot distinguish the two; node-object identity (`includes` on
objects held in a registry `Map` keyed by `id`) is modelled as id-equality.
AES-256-GCM and SHA-256 live in the external `crypto` library, so they enter
the embedding as abstract parameters: an `AeadGcm` structure carrying the
cipher laws the library guarantees (length preservation of GCM's CTR body, a
16-byte tag, decryption inverting encryption under the matching tag), and an
abstract digest function `H`.
-/

namespace Mycostr

/-- Abstract model of the AES-256-GCM cipher used through `crypto`
(`createCipheriv('aes-256-gcm', key, iv)` with a fixed 256-bit key).
`encBody iv p` is the ciphertext body, `tagOf iv p` the authentication tag,
`decBody iv ct tag` the (tag-checked) decryption. The three laws are the
guarantees of the external library: GCM is length-preserving, tags are
16 bytes, and decrypting an honestly produced `(iv, ct, tag)` triple
returns the plaintext. -/
structure AeadGcm where
  encBody : List Nat → List Nat → List Nat
  tagOf : List Nat → List Nat → List Nat
  decBody : List Nat → List Nat → List Nat → Option (List Nat)
  enc_length : ∀ iv p, (encBody iv p).length = p.length
  tag_length : ∀ iv p, (tagOf iv p).length = 16
  dec_enc : ∀ iv p, decBody iv (encBody iv p) (tagOf iv p) = some p

/-- `Chunk` record from chunk-handler.ts: `{index, data, hash, size}`
(the optional `iv`/`tag` fields are never set by `processChunk`, which
returns only these four fields). The digest is abstract, so `hash : Nat`
is the value of the abstract digest function. -/
structure Chunk where
  index : Nat
  data : List Nat
  hash : Nat
  size : Nat
deriving DecidableEq, Repr

/-- `ChunkHandler.encryptChunk` (chunk-handler.ts lines 65-87): fresh
12-byte IV, AES-256-GCM, stored blob is `IV ++ ciphertext ++ tag`. -/
def encryptChunk (g : AeadGcm) (iv : List Nat) (data : List Nat) : List Nat :=
  iv ++ g.encBody iv data ++ g.tagOf iv data

/-- `ChunkHandler.decryptChunk` (chunk-handler.ts lines 89-99): IV is the
first 12 bytes (`slice(0, 12)`), tag the last 16 (`slice(-16)`), body the
middle (`slice(12, -16)`); GCM decryption checks the tag. -/
def decryptChunk (g : AeadGcm) (blob : List Nat) : Option (List Nat) :=
  let iv := blob.take 12
  let tag := blob.drop (blob.length - 16)
  let body := (blob.drop 12).take (blob.length - 28)
  g.decBody iv body tag

/-- `ChunkHandler.processChunk` (chunk-handler.ts lines 48-63): encrypt when
configured, hash the processed bytes, record the *plaintext* length in
`size`. `H` is the abstract sha256 digest. -/
def processChunk (encryption : Bool) (g : AeadGcm) (H : List Nat → Nat)
    (iv : List Nat) (data : List Nat) (index : Nat) : Chunk :=
  let processedData := if encryption then encryptChunk g iv data else data
  { index := index, data := processedData, hash := H processedData, size := data.length }

/-- Loop body of `ChunkHandler.splitFile` (chunk-handler.ts lines 36-46):
`for (i = 0; i < file.length; i += chunkSize)` slices `[i, i+chunkSize)` and
processes it as chunk number `i / chunkSize`. The recursion walks the
remaining suffix; `idx` is the chunk index. The `S = 0` guard is only there
to make the definition total: in the source a non-positive chunk size makes
the loop index never advance, so that case never returns (see `splitStep`
and claim C5). `ivs` supplies the per-chunk random 12-byte IV drawn by
`crypto.randomBytes(12)`. -/
def splitFileGo (S : Nat) (encryption : Bool) (g : AeadGcm) (ivs : Nat → List Nat)
    (H : List Nat → Nat) (file : List Nat) (idx : Nat) : List Chunk :=
  if h : file = [] ∨ S = 0 then []
  else
    processChunk encryption g H (ivs idx) (file.take S) idx ::
      splitFileGo S encryption g ivs H (file.drop S) (idx + 1)
termination_by file.length
decreasing_by
  simp only [not_or] at h
  have h1 : 0 < file.length := List.length_pos.mpr h.1
  have h2 : 0 < S := Nat.pos_of_ne_zero h.2
  simp only [List.length_drop]
  omega

/-- `ChunkHandler.splitFile` (chunk-handler.ts lines 36-46). Note the source
performs no input validation: an empty file yields an empty chunk list. -/
def splitFile (S : Nat) (encryption : Bool) (g : AeadGcm) (ivs : Nat → List Nat)
    (H : List Nat → Nat) (file : List Nat) : List Chunk :=
  splitFileGo S encryption g ivs H file 0

/-- The loop-index update `i += chunkSize` of `splitFile`, over JS numbers
(modelled as `Int`): the only way the loop terminates is `i` reaching
`file.length`, and for a non-positive chunk size `i` never grows. -/
def splitStep (S i : Int) : Int := i + S

/-- Constructor guard of the part_008 `ChunkHandler` (lines 35-47):
`if (config.chunkSize && config.chunkSize <= 0) throw` — a JS truthiness
test, so `chunkSize: 0` is falsy, skips the guard, and (being explicitly
present) overrides the 1 MiB default through the spread. Returns the
effective chunk size. -/
def part8ConstructorCheck (chunkSizeGiven : Option Int) : Except String Int :=
  match chunkSizeGiven with
  | none => .ok (1024 * 1024)
  | some s => if s ≠ 0 ∧ s ≤ 0 then .error "Chunk size must be positive" else .ok s

/-- Input validation at the top of the part_008 `splitFile` (lines 49-59):
rejects an empty buffer. -/
def part8SplitValidate (file : List Nat) : Except String Unit :=
  if file.length = 0 then .error "Cannot process empty file" else .ok ()

/-- Failure modes of assembly, per spec §4.1. -/
inductive AssemblyError
  | missingIndex (i : Nat)
  | hashMismatch (i : Nat)
  | decryptFailed (i : Nat)
deriving DecidableEq, Repr

/-- Decode one chunk during assembly: re-hash the stored bytes, compare with
the recorded digest, then decrypt when encryption is enabled. -/
def decodeChunk (encryption : Bool) (g : AeadGcm) (H : List Nat → Nat)
    (c : Chunk) : Except AssemblyError (List Nat) :=
  if H c.data ≠ c.hash then .error (.hashMismatch c.index)
  else if encryption then
    match decryptChunk g c.data with
    | some plain => .ok plain
    | none => .error (.decryptFailed c.index)
  else .ok c.data

/-- Modelled from the spec: `ChunkHandler.assembleFile` is invoked by
`MycostrClient.retrieveFile` (src/src/client/interface.ts line 107) but its
implementation is absent from the source. Per spec §4.1 it "decrypts (if
needed) and concatenates strictly by `index`; fails with `AssemblyError` if
any index is missing or a hash mismatch is detected, and must not silently
skip corrupt chunks": for each position `0 ≤ i < n` it locates the chunk
with `index = i` (missing index fails), verifies its hash, decrypts, and
concatenates in index order. -/
def assembleFile (encryption : Bool) (g : AeadGcm) (H : List Nat → Nat)
    (chunks : List Chunk) : Except AssemblyError (List Nat) := do
  let parts ← (List.range chunks.length).mapM (fun i =>
    match chunks.find? (fun c => c.index = i) with
    | none => Except.error (AssemblyError.missingIndex i)
    | some c => decodeChunk encryption g H c)
  return parts.flatten

/-!
Placement planner: `DistributionManager` in src/src/core/storage/distribution.ts.
JS floats appear as reliabilities and cost multipliers; none of the verified
facts sits on a rounding boundary, so they are modelled as rationals.
-/

/-- `StorageNode` of distribution.ts; `lastSeen` is a millisecond timestamp
(`Date`). -/
structure StorageNode where
  id : String
  region : String
  capacity : ℚ
  available : ℚ
  reliability : ℚ
  lastSeen : Nat
deriving DecidableEq, Repr

/-- The four values of `StoragePreferences.redundancyLevel`. -/
inductive RedundancyLevel
  | minimum
  | standard
  | maximum
  | custom
deriving DecidableEq, Repr

/-- `StoragePreferences` of distribution.ts (the unused
`minNodesPerRegion` field is omitted). -/
structure StoragePreferences where
  redundancyLevel : RedundancyLevel
  customRedundancy : Option Nat
  preferredRegions : Option (List String)
deriving DecidableEq, Repr

/-- `RedundancyTier` of distribution.ts. -/
structure RedundancyTier where
  level : String
  copies : Nat
  regions : Nat
  costMultiplier : ℚ
deriving DecidableEq, Repr

/-- The fixed `redundancyTiers` map (distribution.ts lines 36-55); the
`custom` level is handled before the map is consulted and has no entry. -/
def redundancyTiers : RedundancyLevel → Option RedundancyTier
  | .minimum => some { level := "minimum", copies := 5, regions := 2, costMultiplier := 1 }
  | .standard => some { level := "standard", copies := 15, regions := 4, costMultiplier := 9/5 }
  | .maximum => some { level := "maximum", copies := 30, regions := 8, costMultiplier := 3 }
  | .custom => none

/-- `getBaseCostPerChunk` (distribution.ts line 202): 1000 sats. -/
def baseCostPerChunk : ℚ := 1000

/-- The distinct `throw new Error(...)` sites of `createDistributionPlan`
and `selectTargetNodes`, by message. -/
inductive DistError
  | customBelowFive        -- 'Custom redundancy must be at least 5'
  | insufficientCapacity   -- 'Insufficient payment capacity ...'
  | invalidLevel           -- 'Invalid redundancy level'
  | insufficientNodes      -- 'Insufficient nodes available for requested redundancy'
  | selectionFloor         -- 'Could not select enough nodes for minimum redundancy'
deriving DecidableEq, Repr

/-- The tier/custom arithmetic and affordability gate at the top of
`createDistributionPlan` (distribution.ts lines 68-94), returning
`(targetRedundancy, targetRegions, costMultiplier)`. In the custom branch
the guard is `!preferences.customRedundancy || preferences.customRedundancy < 5`;
`0` is falsy but also `< 5`, so the test collapses to absence-or-below-5. -/
def computeTierParams (prefs : StoragePreferences) (paymentCapacity : ℚ) :
    Except DistError (Nat × Nat × ℚ) :=
  match prefs.redundancyLevel with
  | .custom =>
    match prefs.customRedundancy with
    | none => .error .customBelowFive
    | some n =>
      if n < 5 then .error .customBelowFive
      else
        let costMultiplier : ℚ := (n : ℚ) / 5
        if costMultiplier * baseCostPerChunk > paymentCapacity then .error .insufficientCapacity
        else .ok (n, max 2 (n / 5), costMultiplier)
  | lvl =>
    match redundancyTiers lvl with
    | none => .error .invalidLevel
    | some tier =>
      if tier.costMultiplier * baseCostPerChunk > paymentCapacity then .error .insufficientCapacity
      else .ok (tier.copies, tier.regions, tier.costMultiplier)

/-- `getAvailableNodes` (distribution.ts lines 121-128): keep nodes with
free capacity seen within the 5-minute freshness window, sorted by
reliability descending (JS `sort` is stable; insertion sort with the
comparator's relation models it). `now` stands for `Date.now()`. -/
def getAvailableNodes (nodes : List StorageNode) (now : Nat) : List StorageNode :=
  (nodes.filter (fun n => decide (0 < n.available) && decide (now - n.lastSeen < 300000))).insertionSort
    (fun a b => b.reliability ≤ a.reliability)

/-- Membership test `selected.includes(node)`: the registry `Map` is keyed
by `id`, so object identity coincides with id equality. -/
def isSelected (selected : List StorageNode) (n : StorageNode) : Bool :=
  selected.any (fun m => m.id = n.id)

/-- `selectNodesFromRegion` (distribution.ts lines 188-199): push the first
`min(targetCount, |regionNodes|)` region nodes not already selected. -/
def selectNodesFromRegion (regionNodes : List StorageNode)
    (selected : List StorageNode) (targetCount : Nat) : List StorageNode :=
  (regionNodes.take (min targetCount regionNodes.length)).foldl
    (fun sel n => if isSelected sel n then sel else sel ++ [n]) selected

/-- `Set.add` on the `selectedRegions` string set, keeping insertion
order. -/
def addRegion (rs : List String) (r : String) : List String :=
  if r ∈ rs then rs else rs ++ [r]

/-- The preferred-regions pass of `selectTargetNodes` (distribution.ts
lines 141-152): for each preferred region take an even share
`floor(count / targetRegions)` of its not-yet-selected nodes, and mark the
region represented when it had any eligible node. -/
def preferredPass (nodes : List StorageNode) (count targetRegions : Nat)
    (preferredRegions : List String) : List StorageNode × List String :=
  preferredRegions.foldl
    (fun acc r =>
      let regionNodes := nodes.filter (fun n => n.region = r && !isSelected acc.1 n)
      let selected := selectNodesFromRegion regionNodes acc.1 (count / targetRegions)
      let regions := if 0 < regionNodes.length then addRegion acc.2 r else acc.2
      (selected, regions))
    ([], [])

/-- The greedy `while (selected.length < count && nodes.length > 0)` loop of
`selectTargetNodes` (distribution.ts lines 156-175): take a highest-ranked
node of a new region while region diversity is unsatisfied, otherwise the
best remaining node. `none` models the source's non-termination: when every
node is already selected the loop body pushes nothing and the guard never
changes (the fuel, sized so that it never runs out while progress is
possible, also returns `none` when exhausted). -/
def selectLoop (nodes : List StorageNode) (count targetRegions : Nat) :
    Nat → List StorageNode → List String → Option (List StorageNode)
  | fuel, selected, selectedRegions =>
    if decide (selected.length < count) && !nodes.isEmpty then
      match fuel with
      | 0 => none
      | fuel + 1 =>
        let remaining := nodes.filter (fun n => !isSelected selected n)
        let newRegionNodes := remaining.filter (fun n => !selectedRegions.contains n.region)
        if !newRegionNodes.isEmpty && decide (selectedRegions.length < targetRegions) then
          match newRegionNodes with
          | [] => none
          | n :: _ =>
            selectLoop nodes count targetRegions fuel (selected ++ [n])
              (addRegion selectedRegions n.region)
        else
          match remaining with
          | [] => none
          | b :: _ =>
            selectLoop nodes count targetRegions fuel (selected ++ [b])
              (addRegion selectedRegions b.region)
    else some selected

/-- `selectTargetNodes` (distribution.ts lines 130-186): preferred-regions
pass, greedy fill, then the absolute-floor guard
`if (selected.length < 5) throw`. -/
def selectTargetNodes (nodes : List StorageNode) (count targetRegions : Nat)
    (preferredRegions : Option (List String)) :
    Option (Except DistError (List StorageNode)) :=
  let start := match preferredRegions with
    | none => (([] : List StorageNode), ([] : List String))
    | some prs => preferredPass nodes count targetRegions prs
  match selectLoop nodes count targetRegions (count + nodes.length) start.1 start.2 with
  | none => none
  | some selected =>
    some (if selected.length < 5 then .error .selectionFloor else .ok selected)

/-- `DistributionPlan` of distribution.ts. -/
structure DistributionPlan where
  chunkId : String
  targetNodes : List StorageNode
  redundancyLevel : Nat
  regions : List String
  estimatedCost : ℚ
deriving DecidableEq, Repr

/-- `calculateCost` (distribution.ts lines 205-207). -/
def calculateCost (redundancy : Nat) : ℚ :=
  baseCostPerChunk * ((redundancy : ℚ) / 5)

/-- `[...new Set(xs)]`: first-occurrence deduplication. -/
def dedupKeepFirst (l : List String) : List String :=
  l.foldl (fun acc r => if r ∈ acc then acc else acc ++ [r]) []

/-- `createDistributionPlan` (distribution.ts lines 62-119): tier/custom
arithmetic with affordability gate, the network-wide pool check
`availableNodes.length < targetRedundancy`, then node selection. `nodes` is
the value list of the manager's node map and `now` the clock; the outer
`Option` is `none` exactly when `selectLoop` models non-termination. -/
def createDistributionPlan (nodes : List StorageNode) (now : Nat)
    (chunkId : String) (prefs : StoragePreferences) (paymentCapacity : ℚ) :
    Option (Except DistError DistributionPlan) :=
  match computeTierParams prefs paymentCapacity with
  | .error e => some (.error e)
  | .ok (targetRedundancy, targetRegions, _) =>
    let availableNodes := getAvailableNodes nodes now
    if availableNodes.length < targetRedundancy then some (.error .insufficientNodes)
    else
      match selectTargetNodes availableNodes targetRedundancy targetRegions
          prefs.preferredRegions with
      | none => none
      | some (.error e) => some (.error e)
      | some (.ok targetNodes) =>
        some (.ok { chunkId := chunkId, targetNodes := targetNodes,
                    redundancyLevel := targetRedundancy,
                    regions := dedupKeepFirst (targetNodes.map (fun n => n.region)),
                    estimatedCost := calculateCost targetRedundancy })

/-!
Replica ledger: `FileManager` in src/unnamed/part_009. Its
`chunkLocations : Map<string, Set<string>>` is modelled as a total function
defaulting to the empty list for absent keys — `updateChunkLocation`
creates an empty set for an absent key before mutating, so the two are
indistinguishable there; node-id sets are duplicate-free lists (insertion
is membership-guarded), so `Set.size` is list length.
-/

/-- Ledger state: chunk id to the node ids currently holding it. -/
structure FMState where
  chunkLocations : String → List String

/-- The `action: 'add' | 'remove'` argument of `updateChunkLocation`. -/
inductive FMAction
  | add
  | remove
deriving DecidableEq, Repr

/-- The only redundancy signal `FileManager` emits
(part_009 line 104). -/
inductive FMEvent
  | lowRedundancy (chunkId : String) (currentCopies : Nat)
deriving DecidableEq, Repr

/-- `getChunkLocations`-style read of the current replica set. -/
def currentReplicas (st : FMState) (chunkId : String) : List String :=
  st.chunkLocations chunkId

/-- `FileManager.updateChunkLocation` (part_009 lines 88-110): fetch (or
create) the chunk's node set, add or delete the node, then
`if (locations.size < 5) emit('lowRedundancy', {chunkId, currentCopies})`.
No other signal exists and no tier target is consulted. -/
def updateChunkLocation (st : FMState) (chunkId nodeId : String)
    (action : FMAction) : FMState × List FMEvent :=
  let locations := st.chunkLocations chunkId
  let locations' := match action with
    | .add => if nodeId ∈ locations then locations else locations ++ [nodeId]
    | .remove => locations.erase nodeId
  let st' : FMState := ⟨fun c => if c = chunkId then locations' else st.chunkLocations c⟩
  let events := if locations'.length < 5 then [FMEvent.lowRedundancy chunkId locations'.length] else []
  (st', events)

/-!
Verification engine: `VerificationManager` in src/unnamed/part_010. The
`proofs` and `challenges` maps (both keyed `chunkId:nodeId`) are functions
from the pair; timestamps and the random proof blob carried by
`StorageProof` play no role in the verified behaviour and are omitted. The
asynchronous `waitForResponse` either resolves with a response string or
rejects with `'Challenge response timeout'` after `challengeTimeout`; its
outcome enters the embedding as an `Option String` argument (`none` for the
timeout rejection). The randomized `simulateVerification` verdict enters as
a `Bool` oracle.
-/

/-- `StorageProof` record (verification-relevant fields). -/
structure VMProof where
  chunkId : String
  nodeId : String
  verified : Bool
deriving DecidableEq, Repr

/-- `VerificationChallenge.status` values. -/
inductive ChallengeStatus
  | pending
  | complete
  | failed
deriving DecidableEq, Repr

/-- `VerificationChallenge` record of part_010. -/
structure VMChallenge where
  chunkId : String
  nodeId : String
  challenge : String
  response : Option String
  status : ChallengeStatus
deriving DecidableEq, Repr

/-- Mutable state of `VerificationManager`. -/
structure VMState where
  proofs : String × String → Option VMProof
  challenges : String × String → Option VMChallenge

/-- Events emitted by `VerificationManager` on the verification path. -/
inductive VMEvent
  | challengeCreated (chunkId nodeId : String)
  | proofUpdated (chunkId nodeId : String) (verified : Bool)
  | verificationFailed (chunkId nodeId : String)
deriving DecidableEq, Repr

/-- `createChallenge` (part_010 lines 73-86): store a pending challenge for
the pair and emit `challengeCreated`. `nonce` stands for the random
`generateChallenge()` output. -/
def createChallenge (st : VMState) (chunkId nodeId nonce : String) :
    VMState × VMChallenge × List VMEvent :=
  let ch : VMChallenge :=
    { chunkId := chunkId, nodeId := nodeId, challenge := nonce,
      response := none, status := .pending }
  ({ st with challenges := fun k => if k = (chunkId, nodeId) then some ch else st.challenges k },
   ch, [VMEvent.challengeCreated chunkId nodeId])

/-- `verifyResponse` (part_010 lines 103-114): record the response, set the
challenge status from the verdict, return the verdict. -/
def verifyResponse (st : VMState) (ch : VMChallenge) (response : String)
    (verdict : Bool) : VMState × Bool :=
  let newStatus := if verdict then ChallengeStatus.complete else ChallengeStatus.failed
  let ch' := { ch with response := some response, status := newStatus }
  ({ st with challenges := fun k => if k = (ch.chunkId, ch.nodeId) then some ch' else st.challenges k },
   verdict)

/-- `updateProofStatus` (part_010 lines 116-127): overwrite the pair's
proof record and emit `proofUpdated`. -/
def updateProofStatus (st : VMState) (chunkId nodeId : String) (isValid : Bool) :
    VMState × List VMEvent :=
  ({ st with proofs := fun k =>
      if k = (chunkId, nodeId) then some { chunkId := chunkId, nodeId := nodeId, verified := isValid }
      else st.proofs k },
   [VMEvent.proofUpdated chunkId nodeId isValid])

/-- `handleVerificationFailure` (part_010 lines 129-139): mark the pair's
existing proof (if any) unverified and emit `verificationFailed` — on every
failure, with no consecutive-failure counter anywhere in the state. -/
def handleVerificationFailure (st : VMState) (chunkId nodeId : String) :
    VMState × List VMEvent :=
  let st' := match st.proofs (chunkId, nodeId) with
    | some p =>
      { st with proofs := fun k =>
          if k = (chunkId, nodeId) then some { p with verified := false } else st.proofs k }
    | none => st
  (st', [VMEvent.verificationFailed chunkId nodeId])

/-- The `try` block of `verifyStorage` (part_010 lines 51-65):
create/send the challenge, await the response (a `none` response is the
timeout rejection propagating), verify it and record the proof. -/
def verifyStorageTry (st : VMState) (chunkId nodeId nonce : String)
    (response : Option String) (verdict : Bool) :
    VMState × List VMEvent × Except String Bool :=
  let (st1, ch, evs1) := createChallenge st chunkId nodeId nonce
  match response with
  | none => (st1, evs1, .error "Challenge response timeout")
  | some resp =>
    let (st2, isValid) := verifyResponse st1 ch resp verdict
    let (st3, evs3) := updateProofStatus st2 chunkId nodeId isValid
    (st3, evs1 ++ evs3, .ok isValid)

/-- `verifyStorage` (part_010 lines 51-71): the `catch` turns any thrown
error — the timeout included — into `handleVerificationFailure` plus a
plain `false` return, so the function's result type carries no error. -/
def verifyStorage (st : VMState) (chunkId nodeId nonce : String)
    (response : Option String) (verdict : Bool) :
    VMState × List VMEvent × Bool :=
  match verifyStorageTry st chunkId nodeId nonce response verdict with
  | (st1, evs, .ok b) => (st1, evs, b)
  | (st1, evs, .error _) =>
    let (st2, evs2) := handleVerificationFailure st1 chunkId nodeId
    (st2, evs ++ evs2, false)

/-!
Recovery manager: `RecoveryManager` in src/src/core/recovery/recovery-manager.ts.
The `setTimeout(..., 1000 * operation.attempts)` re-entry is flattened into
recursion, with the scheduled delays collected in order. The recovery
handler's outcome per attempt enters as a function of the attempt number
(`simulateRecovery`'s random draw enters as a rational).
-/

/-- `RecoveryOperation.status` values. -/
inductive RecStatus
  | started
  | inProgress
  | completed
  | failed
deriving DecidableEq, Repr

/-- `RecoveryOperation.type` values. -/
inductive RecType
  | chunk
  | node
  | system
deriving DecidableEq, Repr

/-- `RecoveryOperation` record (the `startTime` date is omitted). -/
structure RecoveryOperation where
  id : String
  type : RecType
  target : String
  status : RecStatus
  attempts : Nat
  error : Option String
deriving DecidableEq, Repr

/-- `executeRecovery` (recovery-manager.ts lines 91-118): mark in-progress,
bump `attempts`, run the handler; on success complete, on exception fail
when `attempts >= maxRetries`, otherwise schedule a retry after
`1000 * operation.attempts` ms (the hard-coded backoff base is 1000).
Returns the final operation and the list of scheduled retry delays. -/
def executeRecovery (maxRetries : Nat) (handler : Nat → Except String Unit)
    (op : RecoveryOperation) : RecoveryOperation × List Nat :=
  let op1 := { op with status := RecStatus.inProgress, attempts := op.attempts + 1 }
  match handler op1.attempts with
  | .ok _ => ({ op1 with status := RecStatus.completed }, [])
  | .error msg =>
    if maxRetries ≤ op1.attempts then
      ({ op1 with status := RecStatus.failed, error := some msg }, [])
    else
      let r := executeRecovery maxRetries handler op1
      (r.1, 1000 * op1.attempts :: r.2)
termination_by maxRetries - op.attempts
decreasing_by
  simp only [not_le] at *
  omega

/-- `simulateRecovery` (recovery-manager.ts lines 187-198): a 1000 ms timer
followed by success iff the random draw exceeds 0.2. Returns the delay it
sleeps and the outcome. -/
def simulateRecovery (rand : ℚ) : Nat × Except String Unit :=
  (1000, if rand > 1/5 then .ok () else .error "Recovery simulation failed")

/-- `handleChunkRecovery` (recovery-manager.ts lines 120-126): the body is
only `await this.simulateRecovery(operation)` — `RecoveryManager` holds no
replica ledger, so no replica count is ever consulted. -/
def handleChunkRecovery (op : RecoveryOperation) (rand : ℚ) :
    Nat × Except String Unit :=
  simulateRecovery rand

/-!
Concrete instances used to evaluate the theorems on closed inputs.
-/

/-- A concrete cipher satisfying the `AeadGcm` laws (identity body with a
constant 16-byte tag), used to evaluate parametric theorems. -/
def idGcm : AeadGcm where
  encBody := fun _ p => p
  tagOf := fun _ _ => List.replicate 16 0
  decBody := fun _ ct tag => if tag = List.replicate 16 0 then some ct else none
  enc_length := fun _ _ => rfl
  tag_length := fun _ _ => by simp
  dec_enc := fun _ _ => by simp

/-- A concrete IV stream: every chunk gets a 12-byte zero IV. -/
def zeroIvs : Nat → List Nat := fun _ => List.replicate 12 0

/-- A concrete digest for evaluation. -/
def lenHash : List Nat → Nat := List.length

/-- A concrete eligible storage node for evaluation. -/
def poolNode (i : Nat) : StorageNode :=
  { id := "n" ++ toString i, region := "r", capacity := 100, available := 1,
    reliability := 1, lastSeen := 0 }

/-- Ten concrete eligible nodes: all have free capacity and were seen at
time 0. -/
def pool10 : List StorageNode := (List.range 10).map poolNode

/-- A ledger holding chunk `chunk1` on 15 nodes (a `standard`-tier chunk at
its target). -/
def fmStandard : FMState :=
  ⟨fun c => if c = "chunk1" then
      ["n1", "n2", "n3", "n4", "n5", "n6", "n7", "n8", "n9", "n10",
       "n11", "n12", "n13", "n14", "n15"] else []⟩

/-- A ledger holding chunk `chunk1` on exactly 5 nodes. -/
def fmFive : FMState :=
  ⟨fun c => if c = "chunk1" then ["n1", "n2", "n3", "n4", "n5"] else []⟩

/-- A verification manager with no proofs and no challenges recorded. -/
def emptyVM : VMState := ⟨fun _ => none, fun _ => none⟩

/-- A freshly created recovery operation (`startRecovery` initialises
`status: 'started', attempts: 0`). -/
def recOp0 : RecoveryOperation :=
  { id := "op1", type := RecType.chunk, target := "chunkX",
    status := RecStatus.started, attempts := 0, error := none }

/-!
Theorems.
-/

/-- C10: for every chunk produced with encryption enabled, the `size` field
is the plaintext length while the stored-and-hashed `data` blob is
`IV ++ ciphertext ++ tag`, exactly 28 bytes longer (12-byte IV plus 16-byte
tag), and `hash` is the digest of that blob — so `size` never describes the
stored bytes. -/
theorem C10_encrypted_size_vs_blob (g : AeadGcm) (H : List Nat → Nat)
    (iv data : List Nat) (index : Nat) (hiv : iv.length = 12) :
    (processChunk true g H iv data index).size = data.length ∧
    (processChunk true g H iv data index).data = iv ++ g.encBody iv data ++ g.tagOf iv data ∧
    (processChunk true g H iv data index).data.length = data.length + 28 ∧
    (processChunk true g H iv data index).hash = H (processChunk true g H iv data index).data ∧
    (processChunk true g H iv data index).data.length ≠ (processChunk true g H iv data index).size := by
  refine ⟨rfl, rfl, ?_, rfl, ?_⟩
  · simp [processChunk, encryptChunk, g.enc_length, g.tag_length, hiv]
    omega
  · simp [processChunk, encryptChunk, g.enc_length, g.tag_length, hiv]
    omega

/-- Witness for C10 at a concrete chunk. -/
theorem C10_encrypted_size_vs_blob_witness :
    (processChunk true idGcm lenHash (List.replicate 12 0) [1, 2, 3] 7).size = 3 ∧
    (processChunk true idGcm lenHash (List.replicate 12 0) [1, 2, 3] 7).data.length = 3 + 28 := by
  have h := C10_encrypted_size_vs_blob idGcm lenHash (List.replicate 12 0) [1, 2, 3] 7 (by simp)
  exact ⟨h.1, by simpa using h.2.2.1⟩

/-- C4: tier arithmetic — the fixed catalog is
minimum{5,2,1.0}, standard{15,4,1.8}, maximum{30,8,3.0}; an affordable
`standard` request always yields copies 15 and regions 4; an affordable
custom request of `n ≥ 5` yields copies `n`, regions `max 2 (n / 5)` and
cost multiplier `n / 5` (so custom 6 gives 6, 2 and 6/5 = 1.2); custom 4 is
rejected with the invalid-redundancy error before anything else is
checked. -/
theorem C4_tier_arithmetic :
    redundancyTiers .minimum = some { level := "minimum", copies := 5, regions := 2, costMultiplier := 1 } ∧
    redundancyTiers .standard = some { level := "standard", copies := 15, regions := 4, costMultiplier := 9/5 } ∧
    redundancyTiers .maximum = some { level := "maximum", copies := 30, regions := 8, costMultiplier := 3 } ∧
    (∀ cap : ℚ, 1800 ≤ cap →
      computeTierParams ⟨.standard, none, none⟩ cap = .ok (15, 4, 9/5)) ∧
    (∀ (n : Nat) (cap : ℚ), 5 ≤ n → (n : ℚ) / 5 * baseCostPerChunk ≤ cap →
      computeTierParams ⟨.custom, some n, none⟩ cap = .ok (n, max 2 (n / 5), (n : ℚ) / 5)) ∧
    (∀ cap : ℚ, 1200 ≤ cap →
      computeTierParams ⟨.custom, some 6, none⟩ cap = .ok (6, 2, 6/5)) ∧
    (∀ cap : ℚ, computeTierParams ⟨.custom, some 4, none⟩ cap = .error .customBelowFive) := by
  refine ⟨rfl, rfl, rfl, ?_, ?_, ?_, ?_⟩
  · intro cap hcap
    simp only [computeTierParams, redundancyTiers, baseCostPerChunk]
    rw [if_neg]
    push_neg
    linarith
  · intro n cap hn hcap
    simp only [computeTierParams, baseCostPerChunk] at *
    rw [if_neg (by omega), if_neg (by push_neg; exact hcap)]
  · intro cap hcap
    simp only [computeTierParams, baseCostPerChunk]
    rw [if_neg (by omega), if_neg (by push_neg; norm_num; linarith)]
    norm_num
  · intro cap
    simp [computeTierParams]

/-- Witness for C4 at concrete capacities. -/
theorem C4_tier_arithmetic_witness :
    computeTierParams ⟨.standard, none, none⟩ 100000 = .ok (15, 4, 9/5) ∧
    computeTierParams ⟨.custom, some 7, none⟩ 100000 = .ok (7, 2, 7/5) ∧
    computeTierParams ⟨.custom, some 6, none⟩ 100000 = .ok (6, 2, 6/5) ∧
    computeTierParams ⟨.custom, some 4, none⟩ 100000 = .error .customBelowFive := by
  refine ⟨C4_tier_arithmetic.2.2.2.1 100000 (by norm_num), ?_,
    C4_tier_arithmetic.2.2.2.2.2.1 100000 (by norm_num),
    C4_tier_arithmetic.2.2.2.2.2.2 100000⟩
  have h := C4_tier_arithmetic.2.2.2.2.1 7 100000 (by norm_num) (by norm_num [baseCostPerChunk])
  simpa using h

/-- Counterexample to C2: removing a replica of a `standard`-tier chunk
(target 15 copies) so that 14 remain emits nothing at all — the ledger only
compares against the fixed constant 5, never against the tier target; and
dropping from 5 to 4 replicas (below the absolute floor) emits
`lowRedundancy`, the only signal `FileManager` has — there is no
`criticalRedundancy` signal. -/
theorem C2_counterexample :
    (currentReplicas (updateChunkLocation fmStandard "chunk1" "n15" .remove).1 "chunk1").length = 14 ∧
    (updateChunkLocation fmStandard "chunk1" "n15" .remove).2 = [] ∧
    (updateChunkLocation fmFive "chunk1" "n5" .remove).2 = [FMEvent.lowRedundancy "chunk1" 4] := by
  refine ⟨?_, ?_, ?_⟩ <;> decide

/-- C2 amended: every mutation of the replica ledger re-evaluates the
chunk's replica count against the fixed minimum threshold of 5 only: it
emits `lowRedundancy{chunkId, currentCopies}` exactly when the resulting
count is below 5, and emits nothing otherwise — the tier's copies target is
never consulted and no `criticalRedundancy` signal exists. -/
theorem C2_low_redundancy_signal (st : FMState) (chunkId nodeId : String)
    (action : FMAction) :
    (updateChunkLocation st chunkId nodeId action).2 =
      (if (currentReplicas (updateChunkLocation st chunkId nodeId action).1 chunkId).length < 5
       then [FMEvent.lowRedundancy chunkId
               (currentReplicas (updateChunkLocation st chunkId nodeId action).1 chunkId).length]
       else []) := by
  simp [updateChunkLocation, currentReplicas]

/-- Counterexample to C9: the very first verification failure for a fresh
`(chunkId, nodeId)` pair already emits the failure signal consumed for
recovery (`verificationFailed` — there is no `nodeSuspect` signal and no
consecutive-failure counter), and a second consecutive failure emits exactly
the same thing: nothing waits for a third failure. -/
theorem C9_counterexample :
    (handleVerificationFailure emptyVM "c1" "nodeA").2 =
      [VMEvent.verificationFailed "c1" "nodeA"] ∧
    (handleVerificationFailure (handleVerificationFailure emptyVM "c1" "nodeA").1 "c1" "nodeA").2 =
      [VMEvent.verificationFailed "c1" "nodeA"] := by
  constructor <;> rfl

/-- C9 amended: on every verification failure for a pair — the first
included — the engine immediately emits `verificationFailed{chunkId,
nodeId}` and marks the pair's stored proof (when one exists) unverified,
touching nothing else; it keeps no consecutive-failure count and has no
`nodeSuspect` signal. -/
theorem C9_failure_signal_immediate (st : VMState) (c n : String) :
    (handleVerificationFailure st c n).2 = [VMEvent.verificationFailed c n] ∧
    (handleVerificationFailure st c n).1.proofs (c, n) =
      (st.proofs (c, n)).map (fun p => { p with verified := false }) ∧
    (∀ k, k ≠ (c, n) → (handleVerificationFailure st c n).1.proofs k = st.proofs k) ∧
    (handleVerificationFailure st c n).1.challenges = st.challenges := by
  cases h : st.proofs (c, n) with
  | none => simp [handleVerificationFailure, h]
  | some p =>
    refine ⟨by simp [handleVerificationFailure, h], by simp [handleVerificationFailure, h],
      ?_, by simp [handleVerificationFailure, h]⟩
    intro k hk
    simp only [handleVerificationFailure, h]
    rw [if_neg hk]

/-- Counterexample to C6: a timed-out challenge for a pair with no prior
proof record makes `verifyStorage` return `false` (no error is thrown), but
no proof state for the pair ever becomes failed — the proofs map still has
no record for the pair and the stored challenge's status remains `pending`,
not `failed`. -/
theorem C6_counterexample :
    (verifyStorage emptyVM "c1" "nodeA" "nonce1" none true).2.2 = false ∧
    (verifyStorage emptyVM "c1" "nodeA" "nonce1" none true).1.proofs ("c1", "nodeA") = none ∧
    ((verifyStorage emptyVM "c1" "nodeA" "nonce1" none true).1.challenges ("c1", "nodeA")).map
        VMChallenge.status = some ChallengeStatus.pending := by
  refine ⟨rfl, rfl, rfl⟩

/-- C6 amended: a challenge that receives no response within
`challengeTimeout` makes `verifyStorage` return `false` — the timeout
rejection is caught and never surfaces as a thrown error — and emits
`challengeCreated` followed by `verificationFailed`; an existing proof
record for the pair is marked unverified, but when the pair has no prior
proof record none is created, and the pair's stored challenge keeps status
`pending`. -/
theorem C6_timeout_returns_false (st : VMState) (c n nonce : String) (verdict : Bool) :
    (verifyStorage st c n nonce none verdict).2.2 = false ∧
    (verifyStorage st c n nonce none verdict).2.1 =
      [VMEvent.challengeCreated c n, VMEvent.verificationFailed c n] ∧
    (verifyStorage st c n nonce none verdict).1.proofs (c, n) =
      (st.proofs (c, n)).map (fun p => { p with verified := false }) ∧
    (verifyStorage st c n nonce none verdict).1.challenges (c, n) =
      some { chunkId := c, nodeId := n, challenge := nonce,
             response := none, status := ChallengeStatus.pending } := by
  cases h : st.proofs (c, n) <;>
    simp [verifyStorage, verifyStorageTry, createChallenge, handleVerificationFailure, h]

/-- C8 (code evaluation): `handleChunkRecovery` is the randomized
`simulateRecovery` stub — its outcome is identical for every operation (so
no replica count is re-checked; `RecoveryManager` holds no ledger at all),
it always sleeps the 1000 ms simulation timer (never completes
immediately), and it fails outright whenever the random draw is at most
0.2, even for a chunk already at target redundancy. -/
theorem C8_chunk_recovery_is_stub (op op2 : RecoveryOperation) (r : ℚ) :
    handleChunkRecovery op r = handleChunkRecovery op2 r ∧
    (handleChunkRecovery op r).1 = 1000 ∧
    handleChunkRecovery op (1/10) = (1000, .error "Recovery simulation failed") := by
  refine ⟨rfl, rfl, ?_⟩
  simp only [handleChunkRecovery, simulateRecovery]
  norm_num

/-- C5 (code evaluation): the canonical `ChunkHandler.splitFile` performs no
input validation — an empty file yields an empty chunk list, not an
`InvalidInputError`; the part_008 variant does reject an empty file, but its
constructor's truthiness guard accepts `chunkSize = 0`, and with a
non-positive chunk size the split loop's index `i += chunkSize` never grows
past 0, so the loop never terminates on a non-empty file. -/
theorem C5_validation_gap :
    (∀ (S : Nat) (enc : Bool) (g : AeadGcm) (ivs : Nat → List Nat) (H : List Nat → Nat),
      splitFile S enc g ivs H [] = []) ∧
    part8SplitValidate [] = .error "Cannot process empty file" ∧
    part8ConstructorCheck (some 0) = .ok 0 ∧
    (∀ S i : Int, S ≤ 0 → i ≤ 0 → splitStep S i ≤ 0) := by
  refine ⟨?_, rfl, rfl, ?_⟩
  · intro S enc g ivs H
    unfold splitFile splitFileGo
    simp
  · intro S i hS hi
    simp only [splitStep]
    omega

/-- Witness for C5 at concrete inputs. -/
theorem C5_validation_gap_witness :
    splitFile 4 true idGcm zeroIvs lenHash [] = [] ∧ splitStep (-3) 0 ≤ 0 :=
  ⟨C5_validation_gap.1 4 true idGcm zeroIvs lenHash,
   C5_validation_gap.2.2.2 (-3) 0 (by decide) (by decide)⟩

/-- One unfolding of `executeRecovery`. -/
lemma executeRecovery_step (m : Nat) (handler : Nat → Except String Unit)
    (op : RecoveryOperation) :
    executeRecovery m handler op =
      (match handler (op.attempts + 1) with
       | .ok _ =>
         ({ op with status := RecStatus.completed, attempts := op.attempts + 1 }, [])
       | .error msg =>
         if m ≤ op.attempts + 1 then
           ({ op with status := RecStatus.failed, attempts := op.attempts + 1, error := some msg }, [])
         else
           ((executeRecovery m handler
               { op with status := RecStatus.inProgress, attempts := op.attempts + 1 }).1,
             1000 * (op.attempts + 1) ::
               (executeRecovery m handler
                 { op with status := RecStatus.inProgress, attempts := op.attempts + 1 }).2)) := by
  rw [executeRecovery]

/-- An always-failing handler drives `executeRecovery` to the terminal
`failed` status with the `attempts` counter at `maxRetries`, scheduling the
retry after attempt `k` with delay `1000 * k`. -/
lemma executeRecovery_allFail (m : Nat) (msg : String) :
    ∀ (d : Nat) (op : RecoveryOperation), m - op.attempts = d → op.attempts < m →
    executeRecovery m (fun _ => .error msg) op =
      ({ op with status := RecStatus.failed, attempts := m, error := some msg },
       (List.range' (op.attempts + 1) (m - op.attempts - 1)).map (fun k => 1000 * k)) := by
  intro d
  induction d with
  | zero => intro op hd hlt; omega
  | succ d ih =>
    intro op hd hlt
    rw [executeRecovery_step]
    by_cases hle : m ≤ op.attempts + 1
    · have hm : op.attempts + 1 = m := by omega
      have hz : m - op.attempts - 1 = 0 := by omega
      simp only [hm, hz, if_pos le_rfl, List.range'_zero, List.map_nil]
    · have hd2 : m - op.attempts - 1 = (m - op.attempts - 2) + 1 := by omega
      simp only [if_neg hle]
      have := ih { op with status := RecStatus.inProgress, attempts := op.attempts + 1 }
        (by simp; omega) (by simp; omega)
      rw [this]
      have h2 : m - (op.attempts + 1) - 1 = m - op.attempts - 2 := by omega
      simp [hd2, h2, List.range'_succ]

/-- C7: a recovery whose handler fails on every attempt is attempted
exactly `maxRetries` times — while `attempts < maxRetries` a failed attempt
re-enters `in-progress` (the recursive re-execution) with the retry after
attempt `k` delayed by `1000 × k` ms (the hard-coded backoff base is
1000) — and then transitions to the terminal status `failed`. -/
theorem C7_retry_backoff_until_failed (m : Nat) (hm : 1 ≤ m) (msg : String)
    (op : RecoveryOperation) (h0 : op.attempts = 0) :
    executeRecovery m (fun _ => .error msg) op =
      ({ op with status := RecStatus.failed, attempts := m, error := some msg },
       (List.range (m - 1)).map (fun k => 1000 * (k + 1))) ∧
    (∀ (handler : Nat → Except String Unit) (op2 : RecoveryOperation) (msg2 : String),
      handler (op2.attempts + 1) = .error msg2 → op2.attempts + 1 < m →
      executeRecovery m handler op2 =
        ((executeRecovery m handler
            { op2 with status := RecStatus.inProgress, attempts := op2.attempts + 1 }).1,
         1000 * (op2.attempts + 1) ::
           (executeRecovery m handler
             { op2 with status := RecStatus.inProgress, attempts := op2.attempts + 1 }).2)) := by
  constructor
  · have := executeRecovery_allFail m msg (m - op.attempts) op rfl (by omega)
    rw [this, h0]
    have hr : List.range' 1 (m - 1) = (List.range (m - 1)).map (fun k => 1 + k) := by
      rw [List.range'_eq_map_range]
    simp only [Nat.zero_add, Nat.sub_zero, hr, List.map_map, Prod.mk.injEq]
    refine ⟨by trivial, ?_⟩
    apply List.map_congr_left
    intro k _
    simp only [Function.comp_apply]
    ring
  · intro handler op2 msg2 hh hlt
    rw [executeRecovery_step, hh]
    simp only [if_neg (by omega : ¬ m ≤ op2.attempts + 1)]

/-- Witness for C7: three attempts at `maxRetries = 3`, delays 1000 ms and
2000 ms, terminal status `failed`. -/
theorem C7_retry_backoff_until_failed_witness :
    executeRecovery 3 (fun _ => .error "boom") recOp0 =
      ({ recOp0 with status := RecStatus.failed, attempts := 3, error := some "boom" },
       [1000, 2000]) := by
  have h := (C7_retry_backoff_until_failed 3 (by decide) "boom" recOp0 rfl).1
  simpa using h


/-- The absolute-floor guard at the end of `selectTargetNodes`: an `ok`
result passed `if (selected.length < 5) throw`. -/
lemma selectFloorGuard_ok (o : Option (List StorageNode)) (sel : List StorageNode)
    (h : (match o with
          | none => none
          | some selected =>
            some (if selected.length < 5 then Except.error DistError.selectionFloor
                  else Except.ok selected)) = some (Except.ok sel)) :
    5 ≤ sel.length := by
  cases o with
  | none => exact absurd h (by simp)
  | some s =>
    simp only [] at h
    by_cases h5 : s.length < 5
    · rw [if_pos h5] at h
      exact absurd h (by simp)
    · rw [if_neg h5] at h
      simp only [Option.some.injEq, Except.ok.injEq] at h
      subst h
      omega

/-- A successfully returned node selection has at least 5 nodes. -/
lemma selectTargetNodes_ok_length (nodes : List StorageNode) (count targetRegions : Nat)
    (preferredRegions : Option (List String)) (sel : List StorageNode)
    (h : selectTargetNodes nodes count targetRegions preferredRegions = some (.ok sel)) :
    5 ≤ sel.length := by
  unfold selectTargetNodes at h
  exact selectFloorGuard_ok _ sel h

/-- The greedy loop hands a selection back only when its guard
`selected.length < count && nodes.length > 0` has become false: the
returned selection meets the copy target unless the node list is empty. -/
lemma selectLoop_some_min (nodes : List StorageNode) (count targetRegions : Nat) :
    ∀ (fuel : Nat) (selected : List StorageNode) (regions : List String)
      (sel : List StorageNode),
    selectLoop nodes count targetRegions fuel selected regions = some sel →
    count ≤ sel.length ∨ nodes = [] := by
  intro fuel
  induction fuel with
  | zero =>
    intro selected regions sel h
    rw [selectLoop] at h
    by_cases hg : (decide (selected.length < count) && !nodes.isEmpty) = true
    · rw [if_pos hg] at h
      exact absurd h (by simp)
    · rw [if_neg hg] at h
      simp only [Option.some.injEq] at h
      subst h
      by_cases hn : nodes = []
      · exact Or.inr hn
      · left
        by_contra hlt
        push_neg at hlt
        exact hg (by simp [hlt, hn])
  | succ fuel ih =>
    intro selected regions sel h
    rw [selectLoop] at h
    by_cases hg : (decide (selected.length < count) && !nodes.isEmpty) = true
    · rw [if_pos hg] at h
      simp only [] at h
      split at h
      · split at h
        · exact absurd h (by simp)
        · exact ih _ _ _ h
      · split at h
        · exact absurd h (by simp)
        · exact ih _ _ _ h
    · rw [if_neg hg] at h
      simp only [Option.some.injEq] at h
      subst h
      by_cases hn : nodes = []
      · exact Or.inr hn
      · left
        by_contra hlt
        push_neg at hlt
        exact hg (by simp [hlt, hn])

/-- The absolute-floor guard cannot produce an error when every selection
the loop can return has at least 5 nodes. -/
lemma selectFloorGuard_no_error (o : Option (List StorageNode)) (e : DistError)
    (hmin : ∀ sel, o = some sel → 5 ≤ sel.length)
    (h : (match o with
          | none => none
          | some selected =>
            some (if selected.length < 5 then Except.error DistError.selectionFloor
                  else Except.ok selected)) = some (Except.error e)) : False := by
  cases o with
  | none => simp at h
  | some s =>
    have h5 := hmin s rfl
    simp only [] at h
    rw [if_neg (by omega)] at h
    simp at h

/-- With a non-empty node list and a copy target of at least 5,
`selectTargetNodes` never returns an error of any kind: the loop only
stops below the target when the node list is empty, and then the floor
guard passes. -/
lemma selectTargetNodes_no_error (nodes : List StorageNode) (count targetRegions : Nat)
    (preferredRegions : Option (List String)) (h5 : 5 ≤ count) (hne : nodes ≠ [])
    (e : DistError) :
    selectTargetNodes nodes count targetRegions preferredRegions ≠ some (.error e) := by
  intro h
  unfold selectTargetNodes at h
  refine selectFloorGuard_no_error _ e ?_ h
  intro sel hsel
  rcases selectLoop_some_min nodes count targetRegions _ _ _ sel hsel with hc | hnil
  · omega
  · exact absurd hnil hne

/-- The `standard` branch of the tier computation under ample capacity. -/
lemma computeTierParams_standard (cap : ℚ) (h : 1800 ≤ cap) :
    computeTierParams ⟨.standard, none, none⟩ cap = .ok (15, 4, 9/5) := by
  simp only [computeTierParams, redundancyTiers, baseCostPerChunk]
  rw [if_neg]
  push_neg
  linarith

/-- When the eligible pool is smaller than the tier's copy target,
`createDistributionPlan` stops at the pool check. -/
lemma createDistributionPlan_params_ok (nodes : List StorageNode) (now : Nat)
    (chunkId : String) (prefs : StoragePreferences) (cap : ℚ)
    (tR tRg : Nat) (mult : ℚ)
    (hp : computeTierParams prefs cap = .ok (tR, tRg, mult)) :
    createDistributionPlan nodes now chunkId prefs cap =
      (if (getAvailableNodes nodes now).length < tR then some (.error .insufficientNodes)
       else
         match selectTargetNodes (getAvailableNodes nodes now) tR tRg
             prefs.preferredRegions with
         | none => none
         | some (.error e) => some (.error e)
         | some (.ok targetNodes) =>
           some (.ok { chunkId := chunkId, targetNodes := targetNodes,
                       redundancyLevel := tR,
                       regions := dedupKeepFirst (targetNodes.map (fun n => n.region)),
                       estimatedCost := calculateCost tR })) := by
  unfold createDistributionPlan
  rw [hp]

/-- When the eligible pool is smaller than the copy target, the plan stops
at the pool check. -/
lemma createDistributionPlan_pool_small (nodes : List StorageNode) (now : Nat)
    (chunkId : String) (prefs : StoragePreferences) (cap : ℚ)
    (tR tRg : Nat) (mult : ℚ)
    (hp : computeTierParams prefs cap = .ok (tR, tRg, mult))
    (hlt : (getAvailableNodes nodes now).length < tR) :
    createDistributionPlan nodes now chunkId prefs cap = some (.error .insufficientNodes) := by
  rw [createDistributionPlan_params_ok nodes now chunkId prefs cap tR tRg mult hp,
    if_pos hlt]

/-- Any tier or custom request that passes validation has a copy target of
at least 5. -/
lemma computeTierParams_copies_ge_five (prefs : StoragePreferences) (cap : ℚ)
    (tR tRg : Nat) (mult : ℚ)
    (hp : computeTierParams prefs cap = .ok (tR, tRg, mult)) : 5 ≤ tR := by
  rcases prefs with ⟨lvl, custo, pr⟩
  cases lvl
  case minimum =>
    simp only [computeTierParams, redundancyTiers] at hp
    split at hp
    · exact absurd hp (by simp)
    · simp only [Except.ok.injEq, Prod.mk.injEq] at hp
      omega
  case standard =>
    simp only [computeTierParams, redundancyTiers] at hp
    split at hp
    · exact absurd hp (by simp)
    · simp only [Except.ok.injEq, Prod.mk.injEq] at hp
      omega
  case maximum =>
    simp only [computeTierParams, redundancyTiers] at hp
    split at hp
    · exact absurd hp (by simp)
    · simp only [Except.ok.injEq, Prod.mk.injEq] at hp
      omega
  case custom =>
    rcases custo with _ | n
    · exact absurd hp (by simp [computeTierParams])
    · simp only [computeTierParams] at hp
      split at hp
      · exact absurd hp (by simp)
      · split at hp
        · exact absurd hp (by simp)
        · simp only [Except.ok.injEq, Prod.mk.injEq] at hp
          omega

/-- Counterexample to C3: with ten eligible nodes network-wide — at least
the claimed threshold of 5 — a `standard`-tier request still fails with the
insufficient-nodes error, because the code's gate is
`availableNodes.length < targetRedundancy` (the tier's copy target, here
15), not the absolute floor 5. -/
theorem C3_counterexample :
    5 ≤ (getAvailableNodes pool10 0).length ∧
    createDistributionPlan pool10 0 "chunk" ⟨.standard, none, none⟩ 1000000 =
      some (.error .insufficientNodes) := by
  refine ⟨by decide, ?_⟩
  exact createDistributionPlan_pool_small pool10 0 "chunk" ⟨.standard, none, none⟩ 1000000
    15 4 (9/5) (computeTierParams_standard 1000000 (by norm_num)) (by decide)

/-- C3 amended: `createDistributionPlan` fails with the insufficient-nodes
error exactly when the eligible-node pool is smaller than the tier's copy
target (`targetRedundancy`), not the absolute floor 5: below the target the
pool check throws it, and at or above the target no error of any message is
raised at all (the selection loop only stops below the target when the pool
is empty, so the floor guard also passes). Since every tier that passes
validation has a copy target of at least 5, a pool of 4 eligible nodes
fails under every tier; and a returned plan never carries fewer than 5
selected nodes. -/
theorem C3_insufficient_nodes_gate (nodes : List StorageNode) (now : Nat)
    (chunkId : String) (prefs : StoragePreferences) (cap : ℚ)
    (tR tRg : Nat) (mult : ℚ)
    (hp : computeTierParams prefs cap = .ok (tR, tRg, mult)) :
    5 ≤ tR ∧
    ((getAvailableNodes nodes now).length < tR ↔
      createDistributionPlan nodes now chunkId prefs cap = some (.error .insufficientNodes)) ∧
    (tR ≤ (getAvailableNodes nodes now).length →
      ∀ e : DistError, createDistributionPlan nodes now chunkId prefs cap ≠ some (.error e)) ∧
    ((getAvailableNodes nodes now).length = 4 →
      createDistributionPlan nodes now chunkId prefs cap = some (.error .insufficientNodes)) ∧
    (∀ plan, createDistributionPlan nodes now chunkId prefs cap = some (.ok plan) →
      5 ≤ plan.targetNodes.length) := by
  have h5 := computeTierParams_copies_ge_five prefs cap tR tRg mult hp
  have hins := fun hlt =>
    createDistributionPlan_pool_small nodes now chunkId prefs cap tR tRg mult hp hlt
  have hnoerr : tR ≤ (getAvailableNodes nodes now).length →
      ∀ e : DistError, createDistributionPlan nodes now chunkId prefs cap ≠
        some (.error e) := by
    intro hge e hres
    rw [createDistributionPlan_params_ok nodes now chunkId prefs cap tR tRg mult hp,
      if_neg (by omega)] at hres
    have hne : getAvailableNodes nodes now ≠ [] := by
      intro hnil
      rw [hnil] at hge
      simp only [List.length_nil] at hge
      omega
    cases hsel : selectTargetNodes (getAvailableNodes nodes now) tR tRg
        prefs.preferredRegions with
    | none =>
      rw [hsel] at hres
      exact absurd hres (by simp)
    | some r =>
      rw [hsel] at hres
      cases r with
      | error e2 =>
        exact selectTargetNodes_no_error (getAvailableNodes nodes now) tR tRg
          prefs.preferredRegions h5 hne e2 hsel
      | ok sel =>
        exact absurd hres (by simp)
  have hiff : (getAvailableNodes nodes now).length < tR ↔
      createDistributionPlan nodes now chunkId prefs cap =
        some (.error .insufficientNodes) := by
    constructor
    · exact hins
    · intro hres
      by_contra hge
      push_neg at hge
      exact hnoerr hge DistError.insufficientNodes hres
  refine ⟨h5, hiff, hnoerr, fun h4 => hins (by omega), ?_⟩
  intro plan hok
  rw [createDistributionPlan_params_ok nodes now chunkId prefs cap tR tRg mult hp] at hok
  by_cases hlt : (getAvailableNodes nodes now).length < tR
  · rw [if_pos hlt] at hok
    exact absurd hok (by simp)
  · rw [if_neg hlt] at hok
    cases hsel : selectTargetNodes (getAvailableNodes nodes now) tR tRg
        prefs.preferredRegions with
    | none =>
      rw [hsel] at hok
      exact absurd hok (by simp)
    | some r =>
      rw [hsel] at hok
      cases r with
      | error e => exact absurd hok (by simp)
      | ok sel =>
        simp only [Option.some.injEq, Except.ok.injEq] at hok
        have hlen := selectTargetNodes_ok_length (getAvailableNodes nodes now) tR tRg
          prefs.preferredRegions sel hsel
        rw [← hok]
        simpa using hlen

/-- Witness for C3 amended: the ten-node pool under `standard` exercises
the forward direction of the biconditional. -/
theorem C3_insufficient_nodes_gate_witness :
    createDistributionPlan pool10 0 "chunk" ⟨.standard, none, none⟩ 1000000 =
      some (.error .insufficientNodes) :=
  (C3_insufficient_nodes_gate pool10 0 "chunk" ⟨.standard, none, none⟩ 1000000
    15 4 (9/5) (computeTierParams_standard 1000000 (by norm_num))).2.1.mp (by decide)

/-- Decrypting the stored blob `IV ++ ciphertext ++ tag` recovers the
plaintext. -/
lemma decryptChunk_encryptChunk (g : AeadGcm) (iv p : List Nat)
    (hiv : iv.length = 12) :
    decryptChunk g (encryptChunk g iv p) = some p := by
  unfold decryptChunk encryptChunk
  have hlen : (iv ++ g.encBody iv p ++ g.tagOf iv p).length = p.length + 28 := by
    rw [List.length_append, List.length_append, hiv, g.enc_length, g.tag_length]
    omega
  have h1 : (iv ++ g.encBody iv p ++ g.tagOf iv p).take 12 = iv := by
    rw [List.append_assoc]
    exact List.take_left' hiv
  have h2 : (iv ++ g.encBody iv p ++ g.tagOf iv p).drop
      ((iv ++ g.encBody iv p ++ g.tagOf iv p).length - 16) = g.tagOf iv p := by
    apply List.drop_left'
    rw [List.length_append, hiv, g.enc_length, hlen]
    omega
  have h3 : ((iv ++ g.encBody iv p ++ g.tagOf iv p).drop 12).take
      ((iv ++ g.encBody iv p ++ g.tagOf iv p).length - 28) = g.encBody iv p := by
    rw [List.append_assoc, List.drop_left' hiv]
    have hn : (iv ++ (g.encBody iv p ++ g.tagOf iv p)).length - 28 =
        (g.encBody iv p).length := by
      rw [← List.append_assoc, hlen, g.enc_length]
      omega
    rw [hn]
    exact List.take_left' rfl
  rw [h1, h2, h3]
  exact g.dec_enc iv p

/-- Assembly-side decoding inverts chunk processing: the recomputed hash of
the stored blob matches the recorded one, and decryption (when enabled)
returns the plaintext slice. -/
lemma decodeChunk_processChunk (e : Bool) (g : AeadGcm) (H : List Nat → Nat)
    (iv p : List Nat) (idx : Nat) (hiv : iv.length = 12) :
    decodeChunk e g H (processChunk e g H iv p idx) = .ok p := by
  cases e with
  | false => simp [decodeChunk, processChunk]
  | true =>
    simp only [decodeChunk, processChunk, if_true]
    rw [if_neg (by simp)]
    simp [decryptChunk_encryptChunk g iv p hiv]

/-- One unfolding of `splitFileGo`. -/
lemma splitFileGo_step (S : Nat) (e : Bool) (g : AeadGcm) (ivs : Nat → List Nat)
    (H : List Nat → Nat) (file : List Nat) (idx : Nat) :
    splitFileGo S e g ivs H file idx =
      if file = [] ∨ S = 0 then []
      else
        processChunk e g H (ivs idx) (file.take S) idx ::
          splitFileGo S e g ivs H (file.drop S) (idx + 1) := by
  rw [splitFileGo]
  split <;> rfl

/-- Joint shape of the chunk list produced by the split loop: its `index`
fields are consecutive from the starting index, and decoding it yields the
plaintext slices, whose concatenation is the input. -/
lemma splitFileGo_spec (S : Nat) (hS : 0 < S) (e : Bool) (g : AeadGcm)
    (ivs : Nat → List Nat) (hiv : ∀ i, (ivs i).length = 12) (H : List Nat → Nat) :
    ∀ (n : Nat) (file : List Nat), file.length ≤ n → ∀ (i0 : Nat),
    ∃ vals : List (List Nat),
      (splitFileGo S e g ivs H file i0).map Chunk.index =
        List.range' i0 (splitFileGo S e g ivs H file i0).length ∧
      (splitFileGo S e g ivs H file i0).map (fun c => decodeChunk e g H c) =
        vals.map Except.ok ∧
      vals.flatten = file := by
  intro n
  induction n with
  | zero =>
    intro file hf i0
    have hfile : file = [] := by
      cases file with
      | nil => rfl
      | cons a l => simp at hf
    subst hfile
    refine ⟨[], ?_, ?_, rfl⟩ <;> rw [splitFileGo_step] <;> simp
  | succ n ih =>
    intro file hf i0
    by_cases hfile : file = []
    · subst hfile
      refine ⟨[], ?_, ?_, rfl⟩ <;> rw [splitFileGo_step] <;> simp
    · have hcond : ¬ (file = [] ∨ S = 0) := by
        push_neg
        exact ⟨hfile, by omega⟩
      have hdroplen : (file.drop S).length ≤ n := by
        have hpos : 0 < file.length := List.length_pos.mpr hfile
        simp only [List.length_drop]
        omega
      obtain ⟨vals, hidx, hdec, hflat⟩ := ih (file.drop S) hdroplen (i0 + 1)
      refine ⟨file.take S :: vals, ?_, ?_, ?_⟩
      · rw [splitFileGo_step, if_neg hcond]
        simp only [List.map_cons, List.length_cons, List.range'_succ, hidx]
        rfl
      · rw [splitFileGo_step, if_neg hcond]
        simp only [List.map_cons, hdec,
          decodeChunk_processChunk e g H (ivs i0) (file.take S) i0 (hiv i0)]
      · simp [hflat]

/-- `find?` on a chunk list with consecutive indices starting at `a`
returns the positional element. -/
lemma find?_index_range' (i : Nat) :
    ∀ (cs : List Chunk) (a : Nat),
    cs.map Chunk.index = List.range' a cs.length → a ≤ i → i < a + cs.length →
    cs.find? (fun c => c.index = i) = cs.get? (i - a) := by
  intro cs
  induction cs with
  | nil =>
    intro a hmap hle hlt
    simp only [List.length_nil] at hlt
    omega
  | cons c cs ih =>
    intro a hmap hle hlt
    simp only [List.map_cons, List.length_cons, List.range'_succ] at hmap
    have hc : c.index = a := (List.cons.injEq _ _ _ _).mp hmap |>.1
    have hcs : cs.map Chunk.index = List.range' (a + 1) cs.length :=
      (List.cons.injEq _ _ _ _).mp hmap |>.2
    by_cases hia : i = a
    · subst hia
      rw [List.find?_cons_of_pos _ (by simp [hc])]
      simp
    · have hlt2 : a < i := by omega
      rw [List.find?_cons_of_neg _ (by simp [hc]; omega)]
      rw [ih (a + 1) hcs (by omega) (by simp at hlt ⊢; omega)]
      have : i - a = (i - (a + 1)) + 1 := by omega
      rw [this]
      rfl

/-- `mapM` over consecutive integers of a function that is `ok` at every
position collects the values. -/
lemma mapM_range'_ok (f : Nat → Except AssemblyError (List Nat)) :
    ∀ (vals : List (List Nat)) (a : Nat),
    (∀ k (hk : k < vals.length), f (a + k) = Except.ok (vals.get ⟨k, hk⟩)) →
    (List.range' a vals.length).mapM f = Except.ok vals := by
  intro vals
  induction vals with
  | nil => intro a hv; rfl
  | cons v vs ih =>
    intro a hv
    have h0 : f a = Except.ok v := by
      have := hv 0 (by simp)
      simpa using this
    have hrest : (List.range' (a + 1) vs.length).mapM f = Except.ok vs := by
      apply ih
      intro k hk
      have := hv (k + 1) (by simp; omega)
      simpa [Nat.add_assoc, Nat.add_comm 1 k] using this
    simp only [List.length_cons, List.range'_succ, List.mapM_cons, h0, hrest]
    rfl

/-- C1: assembling the chunks produced by splitting a non-empty file with a
positive chunk size — concatenating strictly by chunk index after hash
verification and decryption — returns exactly the original file. `hiv`
records that every IV drawn by `crypto.randomBytes(12)` is 12 bytes. -/
theorem C1_split_assemble_roundtrip (e : Bool) (g : AeadGcm)
    (ivs : Nat → List Nat) (hiv : ∀ i, (ivs i).length = 12)
    (H : List Nat → Nat) (file : List Nat) (S : Nat)
    (hf : file ≠ []) (hS : 0 < S) :
    assembleFile e g H (splitFile S e g ivs H file) = .ok file := by
  obtain ⟨vals, hidx, hdec, hflat⟩ :=
    splitFileGo_spec S hS e g ivs hiv H file.length file le_rfl 0
  have hlen : vals.length = (splitFileGo S e g ivs H file 0).length := by
    have h := congrArg List.length hdec
    simpa using h.symm
  have hmapM : (List.range (splitFileGo S e g ivs H file 0).length).mapM (fun i =>
      match (splitFileGo S e g ivs H file 0).find? (fun c => c.index = i) with
      | none => Except.error (AssemblyError.missingIndex i)
      | some c => decodeChunk e g H c) = Except.ok vals := by
    rw [List.range_eq_range', ← hlen]
    apply mapM_range'_ok
    intro k hk
    simp only [Nat.zero_add]
    have hk2 : k < (splitFileGo S e g ivs H file 0).length := by omega
    have hfind := find?_index_range' k (splitFileGo S e g ivs H file 0) 0 hidx
      (Nat.zero_le k) (by omega)
    simp only [Nat.zero_add, Nat.sub_zero] at hfind
    rw [hfind, List.get?_eq_get hk2]
    have hget := congrArg (fun l => List.get? l k) hdec
    simp only [List.get?_map, List.get?_eq_get hk2, List.get?_eq_get hk,
      Option.map_some'] at hget
    simpa using hget
  unfold assembleFile splitFile
  rw [hmapM]
  show Except.ok vals.flatten = Except.ok file
  rw [hflat]

/-- Witness for C1 on a concrete file, chunk size and cipher instance. -/
theorem C1_split_assemble_roundtrip_witness :
    assembleFile true idGcm lenHash
      (splitFile 2 true idGcm zeroIvs lenHash [1, 2, 3, 4, 5]) = .ok [1, 2, 3, 4, 5] :=
  C1_split_assemble_roundtrip true idGcm zeroIvs (fun _ => by simp [zeroIvs])
    lenHash [1, 2, 3, 4, 5] 2 (by simp) (by omega)

end Mycostr
